import Mathlib

/-!
Shallow embedding of the TextImageGen repository (src/text2png.cpp and
src/txt2png.cpp) for checking the natural-language specification.

Modelling conventions:
* C++ `std::string` values are modelled as `List Char`; font family names
  (which need the lexicographic order of `std::string::operator<` /
  `std::set<std::string>`) are modelled as `String`.
* C++ `int` is modelled as `ℤ`; `double` is modelled as `ℚ` (every IEEE
  double value is a rational; decimal literals such as `1.5` and `1.2` are
  taken at their written decimal value).
* The C math library's `cos` and `sin` on doubles are abstracted as
  arbitrary functions `ℚ → ℚ`; `std::round` (round half away from zero) is
  modelled exactly by `cround`.
* Side-effecting code (the batch drivers) is modelled as pure recursion
  over the list of input lines, with the external command executor / the
  renderer passed in as an oracle function.
-/

/-! ### Character classification (C locale `isspace`, `isxdigit`) -/

/-- Whitespace test matching `std::isspace` in the default C locale. -/
def isSpaceB (c : Char) : Bool :=
  c = ' ' || c = '\t' || c = '\n' || c = '\x0b' || c = '\x0c' || c = '\r'

/-- Hex digit test matching the characters accepted by `sscanf` `%x`. -/
def isHexDigitB (c : Char) : Bool :=
  ('0' ≤ c && c ≤ '9') || ('a' ≤ c && c ≤ 'f') || ('A' ≤ c && c ≤ 'F')

/-- Numeric value of a hex digit. -/
def hexVal (c : Char) : ℕ :=
  if '0' ≤ c && c ≤ '9' then c.toNat - '0'.toNat
  else if 'a' ≤ c && c ≤ 'f' then c.toNat - 'a'.toNat + 10
  else if 'A' ≤ c && c ≤ 'F' then c.toNat - 'A'.toNat + 10
  else 0

/-! ### Trim helpers (src/txt2png.cpp lines 66-74) -/

/-- Model of `ltrim`: erase leading characters for which `isspace` holds. -/
def ltrimList (s : List Char) : List Char := s.dropWhile isSpaceB

/-- Model of `rtrim`: erase trailing characters for which `isspace` holds. -/
def rtrimList (s : List Char) : List Char := (s.reverse.dropWhile isSpaceB).reverse

/-- Model of `trim`: `rtrim(ltrim(s))`. -/
def trimList (s : List Char) : List Char := rtrimList (ltrimList s)

/-! ### Escaping for ImageMagick `label:"..."` (src/txt2png.cpp lines 78-86) -/

/-- Model of `escape_for_label`: the loop pushes a backslash before each
backslash or double quote, then the character itself, accumulating into
`out`. -/
def escape_for_label (s : List Char) : List Char :=
  s.foldl (fun out c => if c = '\\' ∨ c = '"' then out ++ ['\\', c] else out ++ [c]) []

/-! ### Decimal rendering of integers (model of `std::to_string`) -/

/-- Decimal digit character for a value below ten. -/
def digitChar (n : ℕ) : Char :=
  if n = 0 then '0' else if n = 1 then '1' else if n = 2 then '2'
  else if n = 3 then '3' else if n = 4 then '4' else if n = 5 then '5'
  else if n = 6 then '6' else if n = 7 then '7' else if n = 8 then '8' else '9'

/-- Fuel-driven decimal rendering of a natural number (the fuel is an upper
bound on the digit count, so the recursion is structural). -/
def natCharsFuel : ℕ → ℕ → List Char
  | 0, _ => []
  | fuel + 1, n =>
    if n < 10 then [digitChar n] else natCharsFuel fuel (n / 10) ++ [digitChar (n % 10)]

/-- Decimal rendering of a natural number. -/
def natChars (n : ℕ) : List Char := natCharsFuel (n + 1) n

/-- Model of `std::to_string` on `int`, used to build output filenames. -/
def intChars (n : ℤ) : List Char :=
  if n < 0 then '-' :: natChars (-n).toNat else natChars n.toNat

/-! ### Options of text2png (src/text2png.cpp lines 18-28)

The fields not touched by any claim under verification (`font_name`,
`output_prefix`, `verbose`) are omitted; the output prefix is passed
explicitly to the batch-driver model instead. Colors are normalized
channel values in `[0,1]`, stored as rationals. -/

structure TextOptions where
  font_size : ℤ := 48
  text_r : ℚ := 1
  text_g : ℚ := 1
  text_b : ℚ := 1
  outline_r : ℚ := 0
  outline_g : ℚ := 0
  outline_b : ℚ := 0
  bg_r : ℚ := 0
  bg_g : ℚ := 0
  bg_b : ℚ := 0
  bg_a : ℚ := 0
  outline_width : ℤ := 2
  padding : ℤ := 20
  deriving DecidableEq

/-- The default-initialized `TextOptions` of src/text2png.cpp. -/
def defaultTextOptions : TextOptions := {}

/-! ### Color-option parsing (src/text2png.cpp lines 298-316 and 336-353) -/

/-- Strip an optional leading `'#'` (the code tests `color[0] == '#'`; on an
empty `std::string`, `color[0]` reads the terminating null character, which
is not `'#'`, so the empty string is left unchanged). -/
def stripHash : List Char → List Char
  | [] => []
  | c :: rest => if c = '#' then rest else c :: rest

/-- Model of one `%02x` conversion of `sscanf`: skip whitespace, then read
one or two hex digit characters. (The C conversion additionally accepts a
sign and a `0x` prefix within the field width; no input used in this
development contains those, so they are not modelled.) -/
def scanHex2 (s : List Char) : Option (ℕ × List Char) :=
  match s.dropWhile isSpaceB with
  | [] => none
  | c :: rest =>
    if isHexDigitB c then
      match rest with
      | [] => some (hexVal c, [])
      | d :: rest2 =>
        if isHexDigitB d then some (16 * hexVal c + hexVal d, rest2)
        else some (hexVal c, d :: rest2)
    else none

/-- Model of `sscanf(s, "%02x%02x%02x", &r, &g, &b)` succeeding with all
three conversions matched. -/
def sscanf3 (s : List Char) : Option (ℕ × ℕ × ℕ) :=
  match scanHex2 s with
  | none => none
  | some (r, s1) =>
    match scanHex2 s1 with
    | none => none
    | some (g, s2) =>
      match scanHex2 s2 with
      | none => none
      | some (b, _) => some (r, g, b)

/-- Model of `sscanf(s, "%02x%02x%02x%02x", &r, &g, &b, &a)` succeeding with
all four conversions matched. -/
def sscanf4 (s : List Char) : Option (ℕ × ℕ × ℕ × ℕ) :=
  match scanHex2 s with
  | none => none
  | some (r, s1) =>
    match scanHex2 s1 with
    | none => none
    | some (g, s2) =>
      match scanHex2 s2 with
      | none => none
      | some (b, s3) =>
        match scanHex2 s3 with
        | none => none
        | some (a, _) => some (r, g, b, a)

/-- Outcome of one color-option handler: colors set, a warning printed to
stderr with the options left unchanged, or (for `--bg-color` with a wrong
length) silence with the options left unchanged. There is no failing
outcome: the program always continues. -/
inductive ColorParseOutcome where
  | set
  | warnInvalidFormat
  | warnCouldNotParse
  | silentIgnored
  deriving DecidableEq

/-- Model of the `--text-color` handler (src/text2png.cpp lines 298-316):
strip `'#'`; if the remainder has length 6 and all three `%02x` conversions
match, set the text color channels to `value/255`; otherwise print a
warning and leave the previous (default) values in effect. -/
def applyTextColor (opts : TextOptions) (arg : List Char) : TextOptions × ColorParseOutcome :=
  let color := stripHash arg
  if color.length = 6 then
    match sscanf3 color with
    | some (r, g, b) =>
      ({ opts with text_r := (r : ℚ) / 255, text_g := (g : ℚ) / 255, text_b := (b : ℚ) / 255 },
       .set)
    | none => (opts, .warnCouldNotParse)
  else (opts, .warnInvalidFormat)

/-- Model of the `--outline-color` handler (src/text2png.cpp lines
317-335): identical flow to the text-color handler, writing the outline
channels — strip `'#'`; if the remainder has length 6 and all three
`%02x` conversions match, set the outline color channels to `value/255`;
otherwise print a warning and leave the previous (default) values in
effect. -/
def applyOutlineColor (opts : TextOptions) (arg : List Char) :
    TextOptions × ColorParseOutcome :=
  let color := stripHash arg
  if color.length = 6 then
    match sscanf3 color with
    | some (r, g, b) =>
      ({ opts with outline_r := (r : ℚ) / 255, outline_g := (g : ℚ) / 255,
                   outline_b := (b : ℚ) / 255 },
       .set)
    | none => (opts, .warnCouldNotParse)
  else (opts, .warnInvalidFormat)

/-- Model of the `--bg-color` handler (src/text2png.cpp lines 336-353):
accepts 6 or 8 hex digits; the `sscanf` return value is not checked, so on
a parse failure the C code reads indeterminate values — those indeterminate
values are supplied here through the `junk` parameter. For any other length
the option is silently ignored (no warning, defaults stay). -/
def applyBgColor (junk : ℕ × ℕ × ℕ × ℕ) (opts : TextOptions) (arg : List Char) :
    TextOptions × ColorParseOutcome :=
  let color := stripHash arg
  if color.length = 6 ∨ color.length = 8 then
    let rgba :=
      if color.length = 8 then
        match sscanf4 color with
        | some v => v
        | none => junk
      else
        match sscanf3 color with
        | some (r, g, b) => (r, g, b, 255)
        | none => (junk.1, junk.2.1, junk.2.2.1, 255)
    ({ opts with bg_r := (rgba.1 : ℚ) / 255, bg_g := (rgba.2.1 : ℚ) / 255,
                 bg_b := (rgba.2.2.1 : ℚ) / 255, bg_a := (rgba.2.2.2 : ℚ) / 255 },
     .set)
  else (opts, .silentIgnored)

/-! ### Canvas sizing and glyph origin (src/text2png.cpp lines 162-203)

`full_width`/`full_height` are computed from the Cairo text extents, floored
to minimum dimensions, then passed through `ceil` and truncated to `int`
(the truncation of an already-integral `ceil` result is the ceiling itself).
The C++ code mutates `full_width`/`full_height` in place; the model uses a
second name for the floored value. -/

structure RenderLayout where
  canvas_width : ℤ
  canvas_height : ℤ
  x_pos : ℚ
  y_pos : ℚ
  deriving DecidableEq

/-- Model of the geometry computed by `render_text_to_png`:
canvas dimensions (lines 170-182) and glyph origin (lines 202-203). -/
def render_layout (font_size padding outline_width : ℤ)
    (bearing_x bearing_y text_width text_height : ℚ) : RenderLayout :=
  let full_width : ℚ := |bearing_x| + text_width + (padding : ℚ) * 2 + (outline_width : ℚ) * 2
  let full_height : ℚ := |bearing_y| + text_height + (padding : ℚ) * 2 + (outline_width : ℚ) * 2
  let fw : ℚ := if full_width < (font_size : ℚ) * (3 / 2) then (font_size : ℚ) * (3 / 2) else full_width
  let fh : ℚ := if full_height < (font_size : ℚ) then (font_size : ℚ) * (6 / 5) else full_height
  { canvas_width := ⌈fw⌉
    canvas_height := ⌈fh⌉
    x_pos := (padding : ℚ) + (outline_width : ℚ) * 2 - bearing_x
    y_pos := (padding : ℚ) + (outline_width : ℚ) * 2 - bearing_y + (font_size : ℚ) }

/-! ### ImageMagick command models (src/txt2png.cpp lines 220-281)

The two command builders of txt2png produce shell command strings; the
model renders each command as the list of ImageMagick operations the string
encodes, in order. -/

/-- One ImageMagick operation appearing in a built command.

* `storeOutlineLabel`: `-background none [-font F] -pointsize P -fill C
  label:"T" -write mpr:outline +delete` — render the escaped text as a
  label in color `C` and store it under the name `mpr:outline`.
* `loadOutlineBase`: the bare `mpr:outline` that loads the stored label as
  the initial canvas of the image sequence.
* `compositeShifted dx dy`: `mpr:outline -background none -gravity center
  -geometry +dx+dy -compose over -composite` — over-composite a copy of the
  stored outline-color label shifted by `(dx, dy)`, centered.
* `compositeFillLabel`: `( -background none [-font F] -pointsize P -fill C
  label:"T" ) -gravity center -compose over -composite` — over-composite
  the fill-color label, unshifted, centered, on top.
* `labelStroked`: the single `label:` of the stroke method with `-fill`,
  `-stroke` and `-strokewidth` settings.
* `writeOutput`: `PNG32:"path"`. -/
inductive IMOp where
  | storeOutlineLabel (font : Option (List Char)) (pointSize : ℤ) (color : List Char)
      (escText : List Char)
  | loadOutlineBase
  | compositeShifted (dx dy : ℤ)
  | compositeFillLabel (font : Option (List Char)) (pointSize : ℤ) (color : List Char)
      (escText : List Char)
  | labelStroked (font : Option (List Char)) (pointSize : ℤ) (fill stroke : List Char)
      (strokeWidth : ℤ) (escText : List Char)
  | writeOutput (path : List Char)
  deriving DecidableEq

/-- The double literal `3.14159265358979323846` of src/txt2png.cpp line 268. -/
def piQ : ℚ := 3.14159265358979323846

/-- Model of `std::round`: round half away from zero. -/
def cround (q : ℚ) : ℤ := if q < 0 then -⌊-q + 1 / 2⌋ else ⌊q + 1 / 2⌋

/-- Model of `build_cmd_stroke` (src/txt2png.cpp lines 220-239). -/
def build_cmd_stroke (font : Option (List Char)) (point_size : ℤ)
    (fill_color outline_color : List Char) (outline_thickness : ℤ)
    (text out_path : List Char) : List IMOp :=
  [IMOp.labelStroked font point_size fill_color outline_color outline_thickness
     (escape_for_label text),
   IMOp.writeOutput out_path]

/-- Model of `build_cmd_offset` (src/txt2png.cpp lines 242-281): store the
outline-color label, load it as the base canvas, composite one shifted copy
per direction `k < directions` (`for (int k = 0; k < directions; ++k)`,
which runs zero times when `directions <= 0`, hence `Int.toNat`), then
composite the fill-color label centered on top and write the output.
`cosF`/`sinF` abstract the C library's `cos`/`sin` on doubles. -/
def build_cmd_offset (cosF sinF : ℚ → ℚ) (font : Option (List Char)) (point_size : ℤ)
    (fill_color outline_color : List Char) (outline_thickness directions : ℤ)
    (text out_path : List Char) : List IMOp :=
  let esc := escape_for_label text
  let r : ℚ := (outline_thickness : ℚ)
  [IMOp.storeOutlineLabel font point_size outline_color esc, IMOp.loadOutlineBase]
  ++ (List.range directions.toNat).map (fun (k : ℕ) =>
       let angle : ℚ := 2 * piQ * (k : ℚ) / (directions : ℚ)
       IMOp.compositeShifted (cround (r * cosF angle)) (cround (r * sinF angle)))
  ++ [IMOp.compositeFillLabel font point_size fill_color esc, IMOp.writeOutput out_path]

/-- The shift of a `compositeShifted` operation, if the operation is one. -/
def shiftOf : IMOp → Option (ℤ × ℤ)
  | .compositeShifted dx dy => some (dx, dy)
  | _ => none

/-- Whether an operation is the fill-color label composite. -/
def isFillComposite : IMOp → Bool
  | .compositeFillLabel _ _ _ _ => true
  | _ => false

/-- Whether an operation renders a label in the given color. -/
def mentionsColor (c : List Char) : IMOp → Bool
  | .storeOutlineLabel _ _ col _ => col = c
  | .compositeFillLabel _ _ col _ => col = c
  | .labelStroked _ _ fill stroke _ _ => fill = c || stroke = c
  | _ => false

/-! ### Batch driver of txt2png (src/txt2png.cpp lines 329-364)

The `while (std::getline...)` loop is modelled as recursion over the list
of input lines. `exec` abstracts `std::system` (returning the command's
exit status) and `mkCmd` abstracts the chosen command builder applied to
the trimmed text and the output path. Besides the data the source tracks
(`lineno`, `made`), the model records the output paths of the commands that
succeeded (`written`, the PNG files on disk) and the `(lineno, text)` pairs
of every render invocation (`jobs`), which the source passes to the command
builder. -/

inductive BatchResult where
  | ok (made : ℕ) (written : List (List Char)) (jobs : List (ℤ × List Char))
  | failedCmd (rc : ℤ) (cmd : List IMOp) (written : List (List Char))
      (jobs : List (ℤ × List Char))
  deriving DecidableEq

/-- Exit code of txt2png's `main` after the loop: 0 on success, 7 when a
command failed (src/txt2png.cpp line 353). -/
def txt2pngExitCode : BatchResult → ℤ
  | .ok _ _ _ => 0
  | .failedCmd _ _ _ _ => 7

/-- PNG files on disk after the loop. -/
def writtenOf : BatchResult → List (List Char)
  | .ok _ w _ => w
  | .failedCmd _ _ w _ => w

/-- The `(lineno, trimmed text)` pairs handed to the command builder. -/
def jobsOf : BatchResult → List (ℤ × List Char)
  | .ok _ _ j => j
  | .failedCmd _ _ _ j => j

/-- Model of txt2png's per-line loop: trim the line; a blank result only
advances `lineno`; otherwise build the command for output path
`prefix ++ to_string(lineno) ++ ".png"` and run it; a nonzero exit status
reports the status and the command and stops; otherwise count the file and
continue. -/
def txt2pngLoop (exec : List IMOp → ℤ) (mkCmd : List Char → List Char → List IMOp)
    (pfx : List Char) : ℤ → ℕ → List (List Char) → List (ℤ × List Char) →
    List (List Char) → BatchResult
  | _, made, written, jobs, [] => .ok made written jobs
  | lineno, made, written, jobs, line :: rest =>
    let t := trimList line
    if t = [] then txt2pngLoop exec mkCmd pfx (lineno + 1) made written jobs rest
    else
      let out_path := pfx ++ intChars lineno ++ ".png".data
      let cmd := mkCmd t out_path
      if exec cmd ≠ 0 then .failedCmd (exec cmd) cmd written (jobs ++ [(lineno, t)])
      else txt2pngLoop exec mkCmd pfx (lineno + 1) (made + 1) (written ++ [out_path])
        (jobs ++ [(lineno, t)]) rest

/-- Model of txt2png's batch run starting from `--start-index`. -/
def txt2pngRun (exec : List IMOp → ℤ) (mkCmd : List Char → List Char → List IMOp)
    (pfx : List Char) (start_index : ℤ) (lines : List (List Char)) : BatchResult :=
  txt2pngLoop exec mkCmd pfx start_index 0 [] [] lines

/-! ### Batch driver of text2png (src/text2png.cpp lines 383-396)

`render` abstracts `render_text_to_png`, returning whether the render
succeeded internally (on failure the function only prints to stderr and
returns). The loop skips only truly empty lines (no trimming), renders the
raw line, prints `Created: <file>` unconditionally, and increments
`line_number` only for non-empty lines. `main` returns 0 after the loop
regardless of render failures. The model returns the list of `Created:`
filenames and the number of failed renders. -/
def text2pngLoop (render : List Char → List Char → Bool) (pfx : List Char) :
    ℤ → List (List Char) → List (List Char) × ℕ
  | _, [] => ([], 0)
  | line_number, line :: rest =>
    if line = [] then text2pngLoop render pfx line_number rest
    else
      let output_filename := pfx ++ intChars line_number ++ ".png".data
      let ok := render line output_filename
      let r := text2pngLoop render pfx (line_number + 1) rest
      (output_filename :: r.1, (if ok then 0 else 1) + r.2)

/-- Model of text2png's batch run: line numbering starts at 1, and the
process exit code is 0 whenever the loop is reached. -/
def text2pngRun (render : List Char → List Char → Bool) (pfx : List Char)
    (lines : List (List Char)) : (List (List Char) × ℕ) × ℤ :=
  (text2pngLoop render pfx 1 lines, 0)

/-! ### Font listing (src/text2png.cpp lines 54-94, src/txt2png.cpp lines 90-133) -/

/-- Ordered insertion into the model of `std::set<std::string>`: keep the
elements strictly sorted by `std::string::operator<` (lexicographic), drop
exact duplicates. -/
def setInsert (x : String) : List String → List String
  | [] => [x]
  | y :: ys => if x < y then x :: y :: ys else if x = y then y :: ys else y :: setInsert x ys

/-- Model of `list_fonts` (src/text2png.cpp): insert every non-null family
name reported by FontConfig into a `std::set<std::string>`; iterating the
set yields the names in sorted order. -/
def list_fonts (families : List (Option String)) : List String :=
  families.foldl (fun acc fam => match fam with | some f => setInsert f acc | none => acc) []

/-- The display loop of `list_fonts`: `int index = 1;` then print
`index << ": " << font_name` and increment per name. -/
def displayFontsFrom : ℕ → List String → List (ℕ × String)
  | _, [] => []
  | index, f :: fs => (index, f) :: displayFontsFrom (index + 1) fs

/-- The indexed display produced by `list_fonts`. -/
def displayFonts (families : List (Option String)) : List (ℕ × String) :=
  displayFontsFrom 1 (list_fonts families)

/-- Model of the regex match `^\s*Font:\s*(.+)\s*$` plus trimming of the
capture (src/txt2png.cpp lines 97-105): the line matches when, after
leading whitespace, it starts with `Font:` followed by at least one
character; the pushed name is the trimmed remainder when non-empty. -/
def parseFontLine (line : List Char) : Option String :=
  let s1 := line.dropWhile isSpaceB
  if s1.take 5 = "Font:".data then
    let rest := s1.drop 5
    if rest = [] then none
    else if trimList rest = [] then none
    else some ⟨trimList rest⟩
  else none

/-- Model of one line of `fc-list : family` output (src/txt2png.cpp lines
116-122): take the part before the first `':'`, trim it, keep it when
non-empty. -/
def parseFcLine (line : List Char) : Option String :=
  let fam := trimList (line.takeWhile (fun c => ¬(c = ':')))
  if fam = [] then none else some ⟨fam⟩

/-- Model of the order-preserving dedup of the fontconfig fallback
(src/txt2png.cpp lines 124-128): push each name not already present. -/
def dedupKeepFirst (l : List String) : List String :=
  l.foldl (fun acc f => if f ∈ acc then acc else acc ++ [f]) []

/-- Model of `collect_fonts` (src/txt2png.cpp lines 90-133): the names of
the `Font:` lines of `magick -list font` output, with NO deduplication; only
when that yields nothing, the deduplicated families of `fc-list : family`. -/
def collect_fonts (imOut fcOut : List (List Char)) : List String :=
  let fonts := imOut.filterMap parseFontLine
  if fonts = [] then dedupKeepFirst (fcOut.filterMap parseFcLine) else fonts

/-! ### Helper lemmas about trimming -/

/-- The head of `dropWhile p` never satisfies `p`. -/
lemma head?_dropWhile_false {p : Char → Bool} :
    ∀ {l : List Char} {c : Char}, (l.dropWhile p).head? = some c → p c = false := by
  intro l
  induction l with
  | nil => intro c h; simp [List.dropWhile] at h
  | cons a as ih =>
    intro c h
    by_cases hp : p a
    · exact ih (by simpa [List.dropWhile, hp] using h)
    · rw [List.dropWhile_cons_of_neg hp] at h
      simp only [List.head?_cons, Option.some.injEq] at h
      subst h
      exact Bool.of_not_eq_true hp

/-- `rtrimList` is a prefix of its argument. -/
lemma rtrimList_append (l : List Char) :
    rtrimList l ++ (l.reverse.takeWhile isSpaceB).reverse = l := by
  rw [rtrimList, ← List.reverse_append, List.takeWhile_append_dropWhile, List.reverse_reverse]

/-- `rtrimList` keeps the head of a list (when the result is nonempty). -/
lemma head?_rtrimList {l : List Char} {c : Char} (h : (rtrimList l).head? = some c) :
    l.head? = some c := by
  have hpre := rtrimList_append l
  rcases heq : rtrimList l with _ | ⟨a, as⟩
  · rw [heq] at h; simp at h
  · rw [heq] at h hpre
    simp only [List.head?_cons, Option.some.injEq] at h
    subst h
    rw [← hpre]
    simp

/-- The first character of a trimmed string is never whitespace. -/
lemma trimList_head? {l : List Char} {c : Char} (h : (trimList l).head? = some c) :
    isSpaceB c = false := by
  have h2 : (ltrimList l).head? = some c := head?_rtrimList h
  exact head?_dropWhile_false h2

/-- The last character of a trimmed string is never whitespace. -/
lemma trimList_getLast? {l : List Char} {c : Char} (h : (trimList l).getLast? = some c) :
    isSpaceB c = false := by
  have : ((ltrimList l).reverse.dropWhile isSpaceB).head? = some c := by
    have := h
    rw [trimList, rtrimList, List.getLast?_reverse] at this
    exact this
  exact head?_dropWhile_false this

/-- A line of only whitespace characters trims to the empty string. -/
lemma trimList_all_space {l : List Char} (h : ∀ c ∈ l, isSpaceB c = true) :
    trimList l = [] := by
  have h1 : ltrimList l = [] := List.dropWhile_eq_nil_iff.mpr h
  show rtrimList (ltrimList l) = []
  rw [h1]
  rfl

/-! ### Helper lemmas about escaping -/

/-- Unfolding of the `escape_for_label` accumulator loop. -/
lemma escape_for_label_foldl (s : List Char) :
    ∀ acc : List Char,
      s.foldl (fun out c => if c = '\\' ∨ c = '"' then out ++ ['\\', c] else out ++ [c]) acc =
        acc ++ s.flatMap (fun c => if c = '\\' ∨ c = '"' then ['\\', c] else [c]) := by
  induction s with
  | nil => intro acc; simp
  | cons c rest ih =>
    intro acc
    by_cases hc : c = '\\' ∨ c = '"'
    · simp only [List.foldl_cons, if_pos hc, List.flatMap_cons, ih, List.append_assoc]
    · simp only [List.foldl_cons, if_neg hc, List.flatMap_cons, ih, List.append_assoc]


/-! ### Helper lemmas about enumerated positions -/

/-- Shifting the base of `enumFrom` under `filterMap`. -/
lemma filterMap_enumFrom_succ {α β : Type} (f : ℕ × α → Option β) :
    ∀ (l : List α) (n : ℕ),
      (List.enumFrom (n + 1) l).filterMap f =
        (List.enumFrom n l).filterMap (fun p => f (p.1 + 1, p.2)) := by
  intro l
  induction l with
  | nil => intro n; rfl
  | cons a as ih =>
    intro n
    simp only [List.enumFrom_cons, List.filterMap_cons]
    rw [ih (n + 1)]

/-- Renumbering one step of the per-line filter: starting the count one
line later is the same as shifting the position index by one. -/
lemma ifJob_shift {β : Type} (f : ℤ → List Char → β) (lineno : ℤ) (p : ℕ × List Char) :
    (if trimList p.2 = [] then none else some (f (lineno + 1 + (p.1 : ℤ)) (trimList p.2))) =
      (if trimList p.2 = [] then none else some (f (lineno + ((p.1 + 1 : ℕ) : ℤ)) (trimList p.2))) := by
  have hcast : lineno + 1 + (p.1 : ℤ) = lineno + ((p.1 + 1 : ℕ) : ℤ) := by push_cast; ring
  rw [hcast]

/-! ### Helper lemmas about the txt2png batch loop -/

/-- Running the loop on concatenated input: the remainder is processed only
when the first part completes without a command failure, and the line
counter advances by one per consumed line (blank or not). -/
lemma txt2pngLoop_append (exec : List IMOp → ℤ) (mkCmd : List Char → List Char → List IMOp)
    (pfx : List Char) :
    ∀ (xs ys : List (List Char)) (lineno : ℤ) (made : ℕ)
      (written : List (List Char)) (jobs : List (ℤ × List Char)),
      txt2pngLoop exec mkCmd pfx lineno made written jobs (xs ++ ys) =
        match txt2pngLoop exec mkCmd pfx lineno made written jobs xs with
        | .ok made' written' jobs' =>
            txt2pngLoop exec mkCmd pfx (lineno + xs.length) made' written' jobs' ys
        | r => r := by
  intro xs
  induction xs with
  | nil =>
    intro ys lineno made written jobs
    simp [txt2pngLoop]
  | cons x rest ih =>
    intro ys lineno made written jobs
    simp only [List.cons_append, txt2pngLoop, List.append_eq]
    by_cases hx : trimList x = []
    · rw [if_pos hx, if_pos hx, ih]
      have harith : lineno + 1 + (rest.length : ℤ) = lineno + ((x :: rest).length : ℤ) := by
        simp [List.length_cons]; ring
      rw [harith]
    · rw [if_neg hx, if_neg hx]
      by_cases hrc : exec (mkCmd (trimList x) (pfx ++ intChars lineno ++ ".png".data)) ≠ 0
      · rw [if_pos hrc, if_pos hrc]
      · rw [if_neg hrc, if_neg hrc, ih]
        have harith : lineno + 1 + (rest.length : ℤ) = lineno + ((x :: rest).length : ℤ) := by
          simp [List.length_cons]; ring
        rw [harith]

/-- Closed form of the loop when every command succeeds: one PNG per line
with non-blank trim, named after the line's position in the file, and one
render job per such line carrying the trimmed text. -/
lemma txt2pngLoop_allOk (exec : List IMOp → ℤ) (hexec : ∀ c, exec c = 0)
    (mkCmd : List Char → List Char → List IMOp) (pfx : List Char) :
    ∀ (lines : List (List Char)) (lineno : ℤ) (made : ℕ)
      (written : List (List Char)) (jobs : List (ℤ × List Char)),
      txt2pngLoop exec mkCmd pfx lineno made written jobs lines =
        .ok (made + (lines.filter (fun l => !(trimList l = []))).length)
          (written ++ (List.enumFrom 0 lines).filterMap (fun p =>
            if trimList p.2 = [] then none
            else some (pfx ++ intChars (lineno + (p.1 : ℤ)) ++ ".png".data)))
          (jobs ++ (List.enumFrom 0 lines).filterMap (fun p =>
            if trimList p.2 = [] then none
            else some (lineno + (p.1 : ℤ), trimList p.2))) := by
  intro lines
  induction lines with
  | nil =>
    intro lineno made written jobs
    simp [txt2pngLoop]
  | cons line rest ih =>
    intro lineno made written jobs
    simp only [txt2pngLoop]
    by_cases hb : trimList line = []
    · rw [if_pos hb, ih]
      congr 1
      · simp [List.filter_cons, hb]
      · simp only [List.enumFrom_cons, List.filterMap_cons, if_pos hb,
          filterMap_enumFrom_succ, Nat.cast_zero, add_zero]
        congr 1
        congr 1
        funext p
        exact ifJob_shift (fun n _ => pfx ++ intChars n ++ ".png".data) lineno p
      · simp only [List.enumFrom_cons, List.filterMap_cons, if_pos hb,
          filterMap_enumFrom_succ, Nat.cast_zero, add_zero]
        congr 1
        congr 1
        funext p
        exact ifJob_shift (fun n t => (n, t)) lineno p
    · rw [if_neg hb]
      have hz : ¬(exec (mkCmd (trimList line) (pfx ++ intChars lineno ++ ".png".data)) ≠ 0) := by
        simp [hexec]
      rw [if_neg hz, ih]
      congr 1
      · simp [List.filter_cons, hb]
        omega
      · simp only [List.enumFrom_cons, List.filterMap_cons, if_neg hb,
          filterMap_enumFrom_succ, Nat.cast_zero, add_zero, List.append_assoc,
          List.singleton_append]
        congr 2
        congr 1
        funext p
        exact ifJob_shift (fun n _ => pfx ++ (intChars n ++ ".png".data)) lineno p
      · simp only [List.enumFrom_cons, List.filterMap_cons, if_neg hb,
          filterMap_enumFrom_succ, Nat.cast_zero, add_zero, List.append_assoc,
          List.singleton_append]
        congr 2
        congr 1
        funext p
        exact ifJob_shift (fun n t => (n, t)) lineno p


lemma map_enumFrom_succ {α β : Type} (f : ℕ × α → β) :
    ∀ (l : List α) (n : ℕ),
      (List.enumFrom (n + 1) l).map f = (List.enumFrom n l).map (fun p => f (p.1 + 1, p.2)) := by
  intro l
  induction l with
  | nil => intro n; rfl
  | cons a as ih =>
    intro n
    simp only [List.enumFrom_cons, List.map_cons]
    rw [ih (n + 1)]

lemma text2pngLoop_created (render : List Char → List Char → Bool) (pfx : List Char) :
    ∀ (lines : List (List Char)) (n : ℤ),
      (text2pngLoop render pfx n lines).1 =
        (List.enumFrom 0 (lines.filter (fun l => !(l = [])))).map (fun p =>
          pfx ++ intChars (n + (p.1 : ℤ)) ++ ".png".data) := by
  intro lines
  induction lines with
  | nil => intro n; rfl
  | cons line rest ih =>
    intro n
    by_cases hl : line = []
    · simp only [text2pngLoop, if_pos hl, List.filter_cons, hl]
      simp only [decide_True, Bool.not_true]
      exact ih n
    · simp only [text2pngLoop, if_neg hl, List.filter_cons, hl]
      simp only [decide_False, Bool.not_false]
      simp only [if_true, if_false]
      rw [List.enumFrom_cons]
      simp only [List.map_cons, Nat.cast_zero, add_zero]
      rw [ih (n + 1), map_enumFrom_succ]
      congr 1
      apply List.map_congr_left
      intro p _
      have hcast : n + 1 + (p.1 : ℤ) = n + ((p.1 + 1 : ℕ) : ℤ) := by push_cast; ring
      simp only [hcast]


lemma setInsert_nil (x : String) : setInsert x [] = [x] := rfl

lemma setInsert_cons (x y : String) (ys : List String) :
    setInsert x (y :: ys) =
      if x < y then x :: y :: ys else if x = y then y :: ys else y :: setInsert x ys := rfl

lemma mem_setInsert {z x : String} : ∀ {l : List String}, z ∈ setInsert x l → z = x ∨ z ∈ l := by
  intro l
  induction l with
  | nil =>
    intro h
    rw [setInsert_nil] at h
    exact Or.inl (List.mem_singleton.mp h)
  | cons y ys ih =>
    intro h
    rw [setInsert_cons] at h
    split_ifs at h with h1 h2
    · rcases List.mem_cons.mp h with h | h
      · exact Or.inl h
      · exact Or.inr h
    · exact Or.inr h
    · rcases List.mem_cons.mp h with h | h
      · exact Or.inr (List.mem_cons.mpr (Or.inl h))
      · rcases ih h with h | h
        · exact Or.inl h
        · exact Or.inr (List.mem_cons.mpr (Or.inr h))

lemma pairwise_setInsert {x : String} :
    ∀ {l : List String}, l.Pairwise (· < ·) → (setInsert x l).Pairwise (· < ·) := by
  intro l
  induction l with
  | nil => intro _; rw [setInsert_nil]; simp
  | cons y ys ih =>
    intro h
    rcases List.pairwise_cons.mp h with ⟨hy, hys⟩
    rw [setInsert_cons]
    split_ifs with h1 h2
    · refine List.pairwise_cons.mpr ⟨?_, h⟩
      intro z hz
      rcases List.mem_cons.mp hz with hz | hz
      · rw [hz]; exact h1
      · exact lt_trans h1 (hy _ hz)
    · exact h
    · have hyx : y < x := lt_of_le_of_ne (le_of_not_lt h1) (Ne.symm h2)
      refine List.pairwise_cons.mpr ⟨?_, ih hys⟩
      intro z hz
      rcases mem_setInsert hz with hz | hz
      · rw [hz]; exact hyx
      · exact hy _ hz

lemma pairwise_list_fonts (families : List (Option String)) :
    (list_fonts families).Pairwise (· < ·) := by
  have key : ∀ (fams : List (Option String)) (acc : List String),
      acc.Pairwise (· < ·) →
      (fams.foldl (fun acc fam => match fam with | some f => setInsert f acc | none => acc)
        acc).Pairwise (· < ·) := by
    intro fams
    induction fams with
    | nil => intro acc hacc; exact hacc
    | cons fam rest ih =>
      intro acc hacc
      cases fam with
      | none => exact ih acc hacc
      | some f => exact ih (setInsert f acc) (pairwise_setInsert hacc)
  exact key families [] List.Pairwise.nil

lemma nodup_list_fonts (families : List (Option String)) : (list_fonts families).Nodup :=
  (pairwise_list_fonts families).imp ne_of_lt

lemma nodup_dedupKeepFirst (l : List String) : (dedupKeepFirst l).Nodup := by
  have key : ∀ (xs : List String) (acc : List String),
      acc.Nodup → (xs.foldl (fun acc f => if f ∈ acc then acc else acc ++ [f]) acc).Nodup := by
    intro xs
    induction xs with
    | nil => intro acc hacc; exact hacc
    | cons x rest ih =>
      intro acc hacc
      by_cases hx : x ∈ acc
      · simp only [List.foldl_cons, if_pos hx]
        exact ih acc hacc
      · simp only [List.foldl_cons, if_neg hx]
        refine ih _ ?_
        rw [List.nodup_append]
        exact ⟨hacc, List.nodup_singleton x, by simpa using hx⟩
  exact key l [] List.nodup_nil

lemma displayFontsFrom_enumFrom : ∀ (l : List String) (i : ℕ),
    displayFontsFrom i l = List.enumFrom i l := by
  intro l
  induction l with
  | nil => intro i; rfl
  | cons f fs ih => intro i; simp only [displayFontsFrom, List.enumFrom_cons, ih]

/-! ### Ceiling helper lemmas for canvas sizing -/

/-- The ceiling of the floored extent is at least the raw extent. -/
lemma ceil_ite_lower (x c d : ℚ) (hcd : c ≤ d) : x ≤ ((⌈if x < c then d else x⌉ : ℤ) : ℚ) := by
  split_ifs with h
  · exact le_trans (le_of_lt h) (le_trans hcd (Int.le_ceil d))
  · exact Int.le_ceil x

/-- The ceiling of the floored extent is at least the threshold. -/
lemma ceil_ite_floor (x c d : ℚ) (hcd : c ≤ d) : c ≤ ((⌈if x < c then d else x⌉ : ℤ) : ℚ) := by
  split_ifs with h
  · exact le_trans hcd (Int.le_ceil d)
  · exact le_trans (not_lt.mp h) (Int.le_ceil x)

/-! ### Claims about canvas sizing (C1) and glyph origin (C4) -/

/-- C1 (amended): for every point size `p ≥ 1`, padding `≥ 0` and outline
thickness `t ≥ 0`, the canvas dimensions are integers obtained by ceiling
the floored extents, and satisfy
`canvas_width ≥ |bearing_x| + ink_width + 2*padding + 2*t`,
`canvas_height ≥ |bearing_y| + ink_height + 2*padding + 2*t`,
`canvas_width ≥ 1.5*p`, and `canvas_height ≥ p`. (The claim's stronger
floor `canvas_height ≥ 1.2*p` fails: the code raises the height to `1.2*p`
only when the computed height is below `p`, so heights in `[p, 1.2*p)`
stand; see the counterexample.) -/
theorem canvas_sizing_bounds (font_size padding outline_width : ℤ)
    (bearing_x bearing_y text_width text_height : ℚ)
    (hfs : 1 ≤ font_size) (hpad : 0 ≤ padding) (how : 0 ≤ outline_width) :
    ((render_layout font_size padding outline_width bearing_x bearing_y
        text_width text_height).canvas_width : ℚ)
      ≥ |bearing_x| + text_width + 2 * (padding : ℚ) + 2 * (outline_width : ℚ) ∧
    ((render_layout font_size padding outline_width bearing_x bearing_y
        text_width text_height).canvas_height : ℚ)
      ≥ |bearing_y| + text_height + 2 * (padding : ℚ) + 2 * (outline_width : ℚ) ∧
    ((render_layout font_size padding outline_width bearing_x bearing_y
        text_width text_height).canvas_width : ℚ) ≥ (3 / 2) * (font_size : ℚ) ∧
    ((render_layout font_size padding outline_width bearing_x bearing_y
        text_width text_height).canvas_height : ℚ) ≥ (font_size : ℚ) := by
  have hfsQ : (1 : ℚ) ≤ (font_size : ℚ) := by exact_mod_cast hfs
  have hfloor : (font_size : ℚ) ≤ (font_size : ℚ) * (6 / 5) := by linarith
  dsimp only [render_layout]
  refine ⟨?_, ?_, ?_, ?_⟩
  · have h := ceil_ite_lower
      (|bearing_x| + text_width + (padding : ℚ) * 2 + (outline_width : ℚ) * 2)
      ((font_size : ℚ) * (3 / 2)) ((font_size : ℚ) * (3 / 2)) le_rfl
    linarith
  · have h := ceil_ite_lower
      (|bearing_y| + text_height + (padding : ℚ) * 2 + (outline_width : ℚ) * 2)
      ((font_size : ℚ)) ((font_size : ℚ) * (6 / 5)) hfloor
    linarith
  · have h := ceil_ite_floor
      (|bearing_x| + text_width + (padding : ℚ) * 2 + (outline_width : ℚ) * 2)
      ((font_size : ℚ) * (3 / 2)) ((font_size : ℚ) * (3 / 2)) le_rfl
    linarith
  · have h := ceil_ite_floor
      (|bearing_y| + text_height + (padding : ℚ) * 2 + (outline_width : ℚ) * 2)
      ((font_size : ℚ)) ((font_size : ℚ) * (6 / 5)) hfloor
    linarith

/-- Witness for `canvas_sizing_bounds` at font size 1 with zero metrics. -/
theorem canvas_sizing_bounds_witness :
    (1 : ℤ) ≤ 1 ∧ (0 : ℤ) ≤ 0 ∧
    (((render_layout 1 0 0 0 0 0 0).canvas_width : ℚ)
        ≥ |(0 : ℚ)| + 0 + 2 * ((0 : ℤ) : ℚ) + 2 * ((0 : ℤ) : ℚ) ∧
      ((render_layout 1 0 0 0 0 0 0).canvas_height : ℚ)
        ≥ |(0 : ℚ)| + 0 + 2 * ((0 : ℤ) : ℚ) + 2 * ((0 : ℤ) : ℚ) ∧
      ((render_layout 1 0 0 0 0 0 0).canvas_width : ℚ) ≥ (3 / 2) * ((1 : ℤ) : ℚ) ∧
      ((render_layout 1 0 0 0 0 0 0).canvas_height : ℚ) ≥ ((1 : ℤ) : ℚ)) :=
  ⟨by norm_num, by norm_num,
    canvas_sizing_bounds 1 0 0 0 0 0 0 (by norm_num) (by norm_num) (by norm_num)⟩

/-- C1 counterexample: at point size 10, zero bearings, padding and outline,
ink width 15 and ink height 10, the computed height is exactly 10, which is
not raised (`10 < 10` is false), so the canvas height is 10 and violates
the claimed floor `canvas_height ≥ 1.2 * p = 12`. -/
theorem canvas_sizing_height_floor_cex :
    ¬ (((render_layout 10 0 0 0 0 15 10).canvas_height : ℚ) ≥ (6 / 5) * (10 : ℚ)) := by
  norm_num [render_layout]

/-- C4: the glyph origin computed by `render_text_to_png` is exactly
`origin_x = padding + 2*outline_width - bearing_x` and
`origin_y = padding + 2*outline_width - bearing_y + font_size` — the
baseline, shifted down by the full point size from the padded top, is what
is anchored, not the top of the ink box. -/
theorem glyph_origin_formula (font_size padding outline_width : ℤ)
    (bearing_x bearing_y text_width text_height : ℚ) :
    (render_layout font_size padding outline_width bearing_x bearing_y
        text_width text_height).x_pos
      = (padding : ℚ) + 2 * (outline_width : ℚ) - bearing_x ∧
    (render_layout font_size padding outline_width bearing_x bearing_y
        text_width text_height).y_pos
      = (padding : ℚ) + 2 * (outline_width : ℚ) - bearing_y + (font_size : ℚ) := by
  constructor
  · dsimp only [render_layout]; ring
  · dsimp only [render_layout]; ring


/-! ### Claims about the offset-halo compositor (C2, C3) -/

/-- A `filterMap` that never drops an element is a `map`. -/
lemma filterMap_eq_map_of_some {α β : Type} {f : α → Option β} {g : α → β}
    (h : ∀ a, f a = some (g a)) : ∀ l : List α, l.filterMap f = l.map g := by
  intro l
  induction l with
  | nil => rfl
  | cons a as ih => rw [List.filterMap_cons, h a, List.map_cons, ih]

/-- C2: for every cos/sin backend, thickness and directions count (in
particular all `t ≥ 0`, `d ≥ 1`), the offset-halo command composites
exactly `directions` shifted copies of the outline-color base layer — the
k-th copy shifted by `(round(t·cos(2πk/d)), round(t·sin(2πk/d)))` using
centered over-compositing (`compositeShifted`) — and after all of them the
fill-color glyph run is composited unshifted, centered, on top, followed
only by the output write. -/
theorem offset_halo_structure (cosF sinF : ℚ → ℚ) (font : Option (List Char))
    (point_size : ℤ) (fill_color outline_color : List Char)
    (outline_thickness directions : ℤ) (text out_path : List Char) :
    (build_cmd_offset cosF sinF font point_size fill_color outline_color
        outline_thickness directions text out_path).filterMap shiftOf =
      (List.range directions.toNat).map (fun (k : ℕ) =>
        (cround ((outline_thickness : ℚ) * cosF (2 * piQ * (k : ℚ) / (directions : ℚ))),
         cround ((outline_thickness : ℚ) * sinF (2 * piQ * (k : ℚ) / (directions : ℚ))))) ∧
    ∃ shifted : List IMOp,
      build_cmd_offset cosF sinF font point_size fill_color outline_color
          outline_thickness directions text out_path =
        [IMOp.storeOutlineLabel font point_size outline_color (escape_for_label text),
         IMOp.loadOutlineBase]
        ++ shifted
        ++ [IMOp.compositeFillLabel font point_size fill_color (escape_for_label text),
            IMOp.writeOutput out_path] ∧
      shifted.length = directions.toNat ∧
      ∀ op ∈ shifted, (shiftOf op).isSome := by
  constructor
  · dsimp only [build_cmd_offset]
    rw [List.filterMap_append, List.filterMap_append, List.filterMap_map]
    rw [show List.filterMap shiftOf
        [IMOp.storeOutlineLabel font point_size outline_color (escape_for_label text),
         IMOp.loadOutlineBase] = [] from rfl]
    rw [show List.filterMap shiftOf
        [IMOp.compositeFillLabel font point_size fill_color (escape_for_label text),
         IMOp.writeOutput out_path] = [] from rfl]
    rw [List.nil_append, List.append_nil]
    exact filterMap_eq_map_of_some (fun k => rfl) _
  · refine ⟨(List.range directions.toNat).map (fun (k : ℕ) =>
      IMOp.compositeShifted
        (cround ((outline_thickness : ℚ) * cosF (2 * piQ * (k : ℚ) / (directions : ℚ))))
        (cround ((outline_thickness : ℚ) * sinF (2 * piQ * (k : ℚ) / (directions : ℚ))))),
      ?_, ?_, ?_⟩
    · rfl
    · rw [List.length_map, List.length_range]
    · intro op hop
      rcases List.mem_map.mp hop with ⟨k, _, hk⟩
      rw [← hk]
      rfl

/-- C3 counterexample: with `directions = 0` and distinct fill (`f`) and
outline (`o`) colors, the built command still contains an operation that
renders a label in the outline color (the stored base label that becomes
the initial canvas), refuting the claim that the degenerate case produces
no outline-color layer at all. -/
theorem offset_halo_outline_layer_cex :
    (build_cmd_offset (fun _ => 1) (fun _ => 0) none 64 ['f'] ['o'] 4 0 ['h'] ['p']).any
        (mentionsColor ['o']) = true := by
  decide

/-- C3 (amended): for `directions ≤ 0` the loop composites no shifted
copies, but the command still stores the outline-color label, loads it as
the base canvas, and composites the fill-color text centered on top of it —
the degenerate output is the fill text over an outline-color base, not
fill-color text only. For `outline_thickness = 0`, all `directions` shifted
copies are still composited, each with zero offset, so the outline-color
layers remain present as well. -/
theorem offset_halo_degenerate (cosF sinF : ℚ → ℚ) (font : Option (List Char))
    (point_size : ℤ) (fill_color outline_color : List Char)
    (outline_thickness directions : ℤ) (text out_path : List Char) :
    (directions ≤ 0 →
      build_cmd_offset cosF sinF font point_size fill_color outline_color
          outline_thickness directions text out_path =
        [IMOp.storeOutlineLabel font point_size outline_color (escape_for_label text),
         IMOp.loadOutlineBase,
         IMOp.compositeFillLabel font point_size fill_color (escape_for_label text),
         IMOp.writeOutput out_path]) ∧
    (outline_thickness = 0 →
      (build_cmd_offset cosF sinF font point_size fill_color outline_color
          outline_thickness directions text out_path).filterMap shiftOf =
        List.replicate directions.toNat ((0 : ℤ), (0 : ℤ))) := by
  constructor
  · intro hd
    have h0 : directions.toNat = 0 := Int.toNat_of_nonpos hd
    dsimp only [build_cmd_offset]
    rw [h0]
    rfl
  · intro ht
    subst ht
    rw [(offset_halo_structure cosF sinF font point_size fill_color outline_color
      0 directions text out_path).1]
    have hc0 : cround (0 : ℚ) = 0 := by norm_num [cround]
    refine List.eq_replicate_iff.mpr ⟨by rw [List.length_map, List.length_range], ?_⟩
    intro b hb
    rcases List.mem_map.mp hb with ⟨k, _, hk⟩
    rw [← hk]
    simp [hc0]

/-- Witness for `offset_halo_degenerate` at `directions = 0` and
`outline_thickness = 0`. -/
theorem offset_halo_degenerate_witness :
    (0 : ℤ) ≤ 0 ∧
    build_cmd_offset (fun _ => 1) (fun _ => 0) none 64 ['f'] ['o'] 0 0 ['h'] ['p'] =
      [IMOp.storeOutlineLabel none 64 ['o'] (escape_for_label ['h']),
       IMOp.loadOutlineBase,
       IMOp.compositeFillLabel none 64 ['f'] (escape_for_label ['h']),
       IMOp.writeOutput ['p']] ∧
    (build_cmd_offset (fun _ => 1) (fun _ => 0) none 64 ['f'] ['o'] 0 0 ['h'] ['p']).filterMap
        shiftOf =
      List.replicate (0 : ℤ).toNat ((0 : ℤ), (0 : ℤ)) :=
  ⟨le_refl 0,
   (offset_halo_degenerate (fun _ => 1) (fun _ => 0) none 64 ['f'] ['o'] 0 0 ['h'] ['p']).1
     (le_refl 0),
   (offset_halo_degenerate (fun _ => 1) (fun _ => 0) none 64 ['f'] ['o'] 0 0 ['h'] ['p']).2 rfl⟩

/-! ### Claims about color parsing (C5) -/

/-- A hex digit is never whitespace. -/
lemma isHexDigitB_not_space {c : Char} (hx : isHexDigitB c = true) : isSpaceB c = false := by
  by_contra hs
  rw [Bool.not_eq_false] at hs
  simp only [isSpaceB, Bool.or_eq_true, decide_eq_true_eq] at hs
  rcases hs with ((((h | h) | h) | h) | h) | h <;> (subst h; revert hx; decide)

/-- One `%02x` conversion on two hex digits consumes exactly that pair. -/
lemma scanHex2_pair {c0 c1 : Char} (h0 : isHexDigitB c0 = true) (h1 : isHexDigitB c1 = true)
    (rest : List Char) :
    scanHex2 (c0 :: c1 :: rest) = some (16 * hexVal c0 + hexVal c1, rest) := by
  unfold scanHex2
  rw [List.dropWhile_cons_of_neg (by simp [isHexDigitB_not_space h0])]
  simp [h0, h1]

/-- `sscanf("%02x%02x%02x")` on six hex digits matches all three pairs. -/
lemma sscanf3_hex6 {c0 c1 c2 c3 c4 c5 : Char}
    (h0 : isHexDigitB c0 = true) (h1 : isHexDigitB c1 = true) (h2 : isHexDigitB c2 = true)
    (h3 : isHexDigitB c3 = true) (h4 : isHexDigitB c4 = true) (h5 : isHexDigitB c5 = true) :
    sscanf3 [c0, c1, c2, c3, c4, c5] =
      some (16 * hexVal c0 + hexVal c1, 16 * hexVal c2 + hexVal c3,
        16 * hexVal c4 + hexVal c5) := by
  unfold sscanf3
  simp [scanHex2_pair h0 h1, scanHex2_pair h2 h3, scanHex2_pair h4 h5]

/-- C5 (amended): text2png's color parsing never fails — there is no
`InvalidColorFormat` outcome anywhere in the flow. A `--text-color` or
`--outline-color` value whose content after stripping an optional `#` is
not exactly 6 characters long elicits a stderr warning with the previous
(default) color left in effect; a value of exactly 6 hex digits sets each
channel to its hex pair parsed as an unsigned byte and divided by 255. A
6-character value that is not plain hex digits is handed to `sscanf`
as-is and can be silently accepted instead of warned about, because `%x`
skips whitespace: `123 45` parses as channels `(0x12, 0x3, 0x45)` and
sets the color with no warning (final conjunct). A `--bg-color` value
whose stripped content is neither 6 nor 8 characters long is ignored
silently, likewise keeping the defaults. -/
theorem color_parsing_behavior :
    (∀ (opts : TextOptions) (arg : List Char), (stripHash arg).length ≠ 6 →
      applyTextColor opts arg = (opts, ColorParseOutcome.warnInvalidFormat)) ∧
    (∀ (opts : TextOptions) (arg : List Char) (c0 c1 c2 c3 c4 c5 : Char),
      stripHash arg = [c0, c1, c2, c3, c4, c5] →
      isHexDigitB c0 = true → isHexDigitB c1 = true → isHexDigitB c2 = true →
      isHexDigitB c3 = true → isHexDigitB c4 = true → isHexDigitB c5 = true →
      applyTextColor opts arg =
        ({ opts with
            text_r := ((16 * hexVal c0 + hexVal c1 : ℕ) : ℚ) / 255,
            text_g := ((16 * hexVal c2 + hexVal c3 : ℕ) : ℚ) / 255,
            text_b := ((16 * hexVal c4 + hexVal c5 : ℕ) : ℚ) / 255 },
          ColorParseOutcome.set)) ∧
    (∀ (opts : TextOptions) (arg : List Char), (stripHash arg).length ≠ 6 →
      applyOutlineColor opts arg = (opts, ColorParseOutcome.warnInvalidFormat)) ∧
    (∀ (opts : TextOptions) (arg : List Char) (c0 c1 c2 c3 c4 c5 : Char),
      stripHash arg = [c0, c1, c2, c3, c4, c5] →
      isHexDigitB c0 = true → isHexDigitB c1 = true → isHexDigitB c2 = true →
      isHexDigitB c3 = true → isHexDigitB c4 = true → isHexDigitB c5 = true →
      applyOutlineColor opts arg =
        ({ opts with
            outline_r := ((16 * hexVal c0 + hexVal c1 : ℕ) : ℚ) / 255,
            outline_g := ((16 * hexVal c2 + hexVal c3 : ℕ) : ℚ) / 255,
            outline_b := ((16 * hexVal c4 + hexVal c5 : ℕ) : ℚ) / 255 },
          ColorParseOutcome.set)) ∧
    (∀ (junk : ℕ × ℕ × ℕ × ℕ) (opts : TextOptions) (arg : List Char),
      (stripHash arg).length ≠ 6 → (stripHash arg).length ≠ 8 →
      applyBgColor junk opts arg = (opts, ColorParseOutcome.silentIgnored)) ∧
    applyTextColor defaultTextOptions ['1', '2', '3', ' ', '4', '5'] =
      ({ defaultTextOptions with
          text_r := ((18 : ℕ) : ℚ) / 255,
          text_g := ((3 : ℕ) : ℚ) / 255,
          text_b := ((69 : ℕ) : ℚ) / 255 },
        ColorParseOutcome.set) := by
  refine ⟨?_, ?_, ?_, ?_, ?_, ?_⟩
  · intro opts arg h
    unfold applyTextColor
    rw [if_neg h]
  · intro opts arg c0 c1 c2 c3 c4 c5 heq h0 h1 h2 h3 h4 h5
    unfold applyTextColor
    rw [heq]
    rw [if_pos (by simp)]
    rw [sscanf3_hex6 h0 h1 h2 h3 h4 h5]
  · intro opts arg h
    unfold applyOutlineColor
    rw [if_neg h]
  · intro opts arg c0 c1 c2 c3 c4 c5 heq h0 h1 h2 h3 h4 h5
    unfold applyOutlineColor
    rw [heq]
    rw [if_pos (by simp)]
    rw [sscanf3_hex6 h0 h1 h2 h3 h4 h5]
  · intro junk opts arg h6 h8
    unfold applyBgColor
    rw [if_neg (by simp [h6, h8])]
  · rfl

/-- Witness for `color_parsing_behavior`: the wrong-length branch of both
handlers at `abc` and `de`, the valid branch at `#0080FF` and `#A0B1C2`,
and the silent bg-color branch at `xyz`. -/
theorem color_parsing_behavior_witness :
    ((stripHash ['a', 'b', 'c']).length ≠ 6 ∧
      applyTextColor defaultTextOptions ['a', 'b', 'c'] =
        (defaultTextOptions, ColorParseOutcome.warnInvalidFormat)) ∧
    (applyTextColor defaultTextOptions ['#', '0', '0', '8', '0', 'F', 'F'] =
      ({ defaultTextOptions with
          text_r := ((16 * hexVal '0' + hexVal '0' : ℕ) : ℚ) / 255,
          text_g := ((16 * hexVal '8' + hexVal '0' : ℕ) : ℚ) / 255,
          text_b := ((16 * hexVal 'F' + hexVal 'F' : ℕ) : ℚ) / 255 },
        ColorParseOutcome.set)) ∧
    ((stripHash ['d', 'e']).length ≠ 6 ∧
      applyOutlineColor defaultTextOptions ['d', 'e'] =
        (defaultTextOptions, ColorParseOutcome.warnInvalidFormat)) ∧
    (applyOutlineColor defaultTextOptions ['#', 'A', '0', 'B', '1', 'C', '2'] =
      ({ defaultTextOptions with
          outline_r := ((16 * hexVal 'A' + hexVal '0' : ℕ) : ℚ) / 255,
          outline_g := ((16 * hexVal 'B' + hexVal '1' : ℕ) : ℚ) / 255,
          outline_b := ((16 * hexVal 'C' + hexVal '2' : ℕ) : ℚ) / 255 },
        ColorParseOutcome.set)) ∧
    ((stripHash ['x', 'y', 'z']).length ≠ 6 ∧ (stripHash ['x', 'y', 'z']).length ≠ 8 ∧
      applyBgColor (0, 0, 0, 0) defaultTextOptions ['x', 'y', 'z'] =
        (defaultTextOptions, ColorParseOutcome.silentIgnored)) :=
  ⟨⟨by decide, color_parsing_behavior.1 defaultTextOptions ['a', 'b', 'c'] (by decide)⟩,
   color_parsing_behavior.2.1 defaultTextOptions ['#', '0', '0', '8', '0', 'F', 'F']
     '0' '0' '8' '0' 'F' 'F' rfl (by decide) (by decide) (by decide) (by decide) (by decide)
     (by decide),
   ⟨by decide, color_parsing_behavior.2.2.1 defaultTextOptions ['d', 'e'] (by decide)⟩,
   color_parsing_behavior.2.2.2.1 defaultTextOptions ['#', 'A', '0', 'B', '1', 'C', '2']
     'A' '0' 'B' '1' 'C' '2' rfl (by decide) (by decide) (by decide) (by decide) (by decide)
     (by decide),
   ⟨by decide, by decide,
     color_parsing_behavior.2.2.2.2.1 (0, 0, 0, 0) defaultTextOptions ['x', 'y', 'z']
       (by decide) (by decide)⟩⟩

/-- C5 counterexample: the malformed color `#12345` (five digits) does not
fail: the handler returns with only a warning outcome, and the default
text color (opaque white, `text_r = 1`) is left in effect — there is no
`InvalidColorFormat` failure path in the code at all. -/
theorem color_parsing_default_kept_cex :
    applyTextColor defaultTextOptions ['#', '1', '2', '3', '4', '5'] =
      (defaultTextOptions, ColorParseOutcome.warnInvalidFormat) ∧
    defaultTextOptions.text_r = 1 :=
  ⟨rfl, rfl⟩

/-! ### Claims about the batch drivers (C6, C7, C10) -/

/-- C6 (amended): the txt2png batch driver aborts on the first failing
render command. When every line before the failing one is processed
without a command failure and the command built for the failing line
returns a nonzero status, the whole run ends in `failedCmd` carrying that
status and the failing command (which contains the line's trimmed text and
its numbered output path, reporting the cause and the line), the files
written so far are kept (no rollback), the result is the same whatever
lines follow — the remaining batch is never processed — and the process
exit code is 7. The text2png driver, by contrast, reports a render failure
only to stderr, keeps processing the remaining lines and exits 0, so the
claim does not hold of it (see the counterexample). -/
theorem batch_abort_on_first_failure
    (exec : List IMOp → ℤ) (mkCmd : List Char → List Char → List IMOp)
    (pfx : List Char) (start : ℤ) (pre : List (List Char)) (line : List Char)
    (post : List (List Char)) (made : ℕ) (written : List (List Char))
    (jobs : List (ℤ × List Char))
    (hpre : txt2pngRun exec mkCmd pfx start pre = .ok made written jobs)
    (hline : trimList line ≠ [])
    (hfail : exec (mkCmd (trimList line)
        (pfx ++ intChars (start + (pre.length : ℤ)) ++ ".png".data)) ≠ 0) :
    txt2pngRun exec mkCmd pfx start (pre ++ line :: post) =
      .failedCmd
        (exec (mkCmd (trimList line)
          (pfx ++ intChars (start + (pre.length : ℤ)) ++ ".png".data)))
        (mkCmd (trimList line)
          (pfx ++ intChars (start + (pre.length : ℤ)) ++ ".png".data))
        written (jobs ++ [(start + (pre.length : ℤ), trimList line)]) ∧
    txt2pngRun exec mkCmd pfx start (pre ++ line :: post) =
      txt2pngRun exec mkCmd pfx start (pre ++ [line]) ∧
    txt2pngExitCode (txt2pngRun exec mkCmd pfx start (pre ++ line :: post)) = 7 := by
  have key : ∀ (post' : List (List Char)),
      txt2pngRun exec mkCmd pfx start (pre ++ line :: post') =
        .failedCmd
          (exec (mkCmd (trimList line)
            (pfx ++ intChars (start + (pre.length : ℤ)) ++ ".png".data)))
          (mkCmd (trimList line)
            (pfx ++ intChars (start + (pre.length : ℤ)) ++ ".png".data))
          written (jobs ++ [(start + (pre.length : ℤ), trimList line)]) := by
    intro post'
    unfold txt2pngRun at hpre ⊢
    rw [txt2pngLoop_append exec mkCmd pfx pre (line :: post') start 0 [] [], hpre]
    simp only [txt2pngLoop]
    rw [if_neg hline, if_pos hfail]
  refine ⟨key post, ?_, ?_⟩
  · rw [key post, key []]
  · rw [key post]
    rfl

/-- Witness for `batch_abort_on_first_failure`: an executor that always
returns status 1, failing immediately on the single-character line `h`,
with one further line pending. -/
theorem batch_abort_on_first_failure_witness :
    txt2pngRun (fun _ => 1) (build_cmd_stroke none 64 ['w'] ['b'] 4) [] 1 [] =
      BatchResult.ok 0 [] [] ∧
    trimList ['h'] ≠ [] ∧
    (fun _ => (1 : ℤ)) (build_cmd_stroke none 64 ['w'] ['b'] 4 (trimList ['h'])
        ([] ++ intChars (1 + ((([] : List (List Char))).length : ℤ)) ++ ".png".data)) ≠ 0 ∧
    txt2pngExitCode (txt2pngRun (fun _ => 1) (build_cmd_stroke none 64 ['w'] ['b'] 4) [] 1
        ([] ++ ['h'] :: [['x']])) = 7 :=
  ⟨rfl, by decide, by decide,
    (batch_abort_on_first_failure (fun _ => 1) (build_cmd_stroke none 64 ['w'] ['b'] 4)
      [] 1 [] ['h'] [['x']] 0 [] [] rfl (by decide) (by decide)).2.2⟩

/-- C6 counterexample: under a renderer that fails on every line, the
text2png driver still processes both input lines (it even prints
`Created:` for each, counting two internal render failures) and the
process exits 0 — it does not abort with a nonzero exit on the first
failing line. -/
theorem batch_continue_cex :
    (text2pngRun (fun _ _ => false) [] [['a'], ['b']]).2 = 0 ∧
    ((text2pngRun (fun _ _ => false) [] [['a'], ['b']]).1).1 =
      [['1', '.', 'p', 'n', 'g'], ['2', '.', 'p', 'n', 'g']] ∧
    ((text2pngRun (fun _ _ => false) [] [['a'], ['b']]).1).2 = 2 := by
  refine ⟨rfl, by decide, by decide⟩

/-- C7: in txt2png a skipped blank line still increments the line counter,
so a successful run names the file of the line at 0-based position `i` as
`prefix ++ (start_index + i) ++ ".png"` — numbering reflects original file
position; in text2png only non-empty lines increment the counter, so the
k-th non-empty line (0-based) is named `prefix ++ (1 + k) ++ ".png"` —
numbering is consecutive over non-blank lines only. Consequently the two
drivers produce different filename lists on an input containing a blank
line, e.g. `["a", "", "b"]`. -/
theorem blank_line_numbering_divergence :
    (∀ (exec : List IMOp → ℤ) (mkCmd : List Char → List Char → List IMOp)
       (pfx : List Char) (start : ℤ) (lines : List (List Char)),
      (∀ c, exec c = 0) →
      writtenOf (txt2pngRun exec mkCmd pfx start lines) =
        (List.enumFrom 0 lines).filterMap (fun p =>
          if trimList p.2 = [] then none
          else some (pfx ++ intChars (start + (p.1 : ℤ)) ++ ".png".data))) ∧
    (∀ (render : List Char → List Char → Bool) (pfx : List Char)
       (lines : List (List Char)),
      (text2pngLoop render pfx 1 lines).1 =
        (List.enumFrom 0 (lines.filter (fun l => !(l = [])))).map (fun p =>
          pfx ++ intChars (1 + (p.1 : ℤ)) ++ ".png".data)) ∧
    writtenOf (txt2pngRun (fun _ => 0) (build_cmd_stroke none 64 ['w'] ['b'] 4) [] 1
        [['a'], [], ['b']]) ≠
      (text2pngLoop (fun _ _ => true) [] 1 [['a'], [], ['b']]).1 := by
  refine ⟨?_, ?_, ?_⟩
  · intro exec mkCmd pfx start lines hexec
    unfold txt2pngRun
    rw [txt2pngLoop_allOk exec hexec mkCmd pfx lines start 0 [] []]
    rfl
  · intro render pfx lines
    exact text2pngLoop_created render pfx lines 1
  · decide

/-- Witness for `blank_line_numbering_divergence`: the always-succeeding
executor on the input `["a", "", "b"]`. -/
theorem blank_line_numbering_divergence_witness :
    (∀ c : List IMOp, (fun _ => (0 : ℤ)) c = 0) ∧
    writtenOf (txt2pngRun (fun _ => 0) (build_cmd_stroke none 64 ['w'] ['b'] 4) [] 1
        [['a'], [], ['b']]) =
      (List.enumFrom 0 [['a'], ([] : List Char), ['b']]).filterMap (fun p =>
        if trimList p.2 = [] then none
        else some ([] ++ intChars (1 + (p.1 : ℤ)) ++ ".png".data)) :=
  ⟨fun _ => rfl,
    blank_line_numbering_divergence.1 (fun _ => 0) (build_cmd_stroke none 64 ['w'] ['b'] 4)
      [] 1 [['a'], [], ['b']] (fun _ => rfl)⟩

/-- C10: in txt2png every line is trimmed before processing. On a
successful run the render jobs are exactly the lines with non-blank trim,
each carrying the trimmed text (so the text handed to the renderer is the
line with leading and trailing whitespace removed), a line consisting only
of whitespace trims to empty and is therefore skipped while its positional
number is still consumed, and a trimmed text never starts or ends with a
whitespace character. -/
theorem txt2png_trim_lines :
    (∀ (exec : List IMOp → ℤ) (mkCmd : List Char → List Char → List IMOp)
       (pfx : List Char) (start : ℤ) (lines : List (List Char)),
      (∀ c, exec c = 0) →
      jobsOf (txt2pngRun exec mkCmd pfx start lines) =
        (List.enumFrom 0 lines).filterMap (fun p =>
          if trimList p.2 = [] then none
          else some (start + (p.1 : ℤ), trimList p.2))) ∧
    (∀ l : List Char, (∀ c ∈ l, isSpaceB c = true) → trimList l = []) ∧
    (∀ (l : List Char) (c : Char), (trimList l).head? = some c → isSpaceB c = false) ∧
    (∀ (l : List Char) (c : Char), (trimList l).getLast? = some c → isSpaceB c = false) := by
  refine ⟨?_, ?_, ?_, ?_⟩
  · intro exec mkCmd pfx start lines hexec
    unfold txt2pngRun
    rw [txt2pngLoop_allOk exec hexec mkCmd pfx lines start 0 [] []]
    rfl
  · intro l h
    exact trimList_all_space h
  · intro l c h
    exact trimList_head? h
  · intro l c h
    exact trimList_getLast? h

/-- Witness for `txt2png_trim_lines`: a padded line and a whitespace-only
line; the sole job carries the trimmed text `hi` at position 1. -/
theorem txt2png_trim_lines_witness :
    (∀ c : List IMOp, (fun _ => (0 : ℤ)) c = 0) ∧
    jobsOf (txt2pngRun (fun _ => 0) (build_cmd_stroke none 64 ['w'] ['b'] 4) [] 1
        [[' ', 'h', 'i', ' '], [' ']]) =
      (List.enumFrom 0 [[' ', 'h', 'i', ' '], [' ']]).filterMap (fun p =>
        if trimList p.2 = [] then none
        else some (1 + (p.1 : ℤ), trimList p.2)) ∧
    ((∀ c ∈ [' '], isSpaceB c = true) ∧ trimList [' '] = []) :=
  ⟨fun _ => rfl,
    txt2png_trim_lines.1 (fun _ => 0) (build_cmd_stroke none 64 ['w'] ['b'] 4) [] 1
      [[' ', 'h', 'i', ' '], [' ']] (fun _ => rfl),
    by decide, txt2png_trim_lines.2.1 [' '] (by decide)⟩

/-! ### Claims about font listing (C8) and label escaping (C9) -/

/-- C8 (amended): text2png's `list_fonts` yields the distinct installed
family names — no name twice (case-sensitive dedup through the
`std::set`), strictly sorted in the set's lexicographic order, displayed
with 1-based indices; being a pure function of the reported family names,
its order is identical across repeated invocations against the same
installed-font set. txt2png's `collect_fonts` deduplicates only in its
fontconfig fallback path (order-preserving, first occurrence kept); its
ImageMagick path returns the `Font:` names exactly as reported and can
repeat a name (see the counterexample). -/
theorem font_listing_order :
    (∀ families : List (Option String),
      (list_fonts families).Nodup ∧ (list_fonts families).Pairwise (· < ·)) ∧
    (∀ families : List (Option String),
      displayFonts families = List.enumFrom 1 (list_fonts families)) ∧
    (∀ fcOut : List (List Char),
      (dedupKeepFirst (fcOut.filterMap parseFcLine)).Nodup) := by
  refine ⟨?_, ?_, ?_⟩
  · intro fams
    exact ⟨nodup_list_fonts fams, pairwise_list_fonts fams⟩
  · intro fams
    exact displayFontsFrom_enumFrom (list_fonts fams) 1
  · intro fcOut
    exact nodup_dedupKeepFirst _

/-- C8 counterexample: when the ImageMagick backend reports the same family
name on two `Font:` lines, `collect_fonts` returns it twice — the listing
is not deduplicated on this path, refuting "no name appearing twice" for
every installed-font set. -/
theorem font_listing_dup_cex :
    collect_fonts ["Font: A".data, "Font: A".data] [] = ["A", "A"] ∧
    ¬ (collect_fonts ["Font: A".data, "Font: A".data] []).Nodup := by
  refine ⟨by decide, by decide⟩

/-- C9: `escape_for_label` expands each character independently — a single
backslash is inserted before each backslash and each double quote, and
every other character (including shell-significant ones such as `$` and
`;`) passes through unchanged — so the output length is at most twice the
input length, and backslash and double quote are the only characters
escaped before the text is interpolated into the shell command. -/
theorem escape_for_label_spec (s : List Char) :
    escape_for_label s =
      s.flatMap (fun c => if c = '\\' ∨ c = '"' then ['\\', c] else [c]) ∧
    (escape_for_label s).length ≤ 2 * s.length ∧
    escape_for_label ['$', ';'] = ['$', ';'] := by
  have hform : ∀ t : List Char,
      escape_for_label t =
        t.flatMap (fun c => if c = '\\' ∨ c = '"' then ['\\', c] else [c]) := by
    intro t
    have h := escape_for_label_foldl t []
    simpa [escape_for_label] using h
  refine ⟨hform s, ?_, by decide⟩
  rw [hform s]
  induction s with
  | nil => simp
  | cons c cs ih =>
    simp only [List.flatMap_cons, List.length_append, List.length_cons]
    have hlen : (if c = '\\' ∨ c = '"' then ['\\', c] else [c]).length ≤ 2 := by
      split_ifs <;> simp
    omega
